import Mathlib

/-!
Verification of the table-streamlining core of `src/jira_data_handler.py`
(repository CycleView).

The embedding models the module's pure core:

* `normalize_version`, `get_major_minor_version`, `add_version_prefix`
  (the Python functions of the same names; the last one is rendered here
  as `addVersionPrefix`);
* `streamline_from_dataframe_dynamic` (rendered as `streamline`), built
  from the keyword-based column classifier, the row-wise bucket sums,
  the optional group-by-version aggregation, the canonical column
  reordering and the final version prefixing.

Cells of the table are modelled by `Cell`: a missing value (pandas NaN),
a string, or an integer count.  Pandas semantics followed by the model
(pandas 2.x defaults):

* `DataFrame.sum(axis=1)` skips missing values, returns 0 for an
  all-missing row, sums integers, concatenates strings in column order,
  and raises `TypeError` when a row mixes strings and integers
  (`numeric_only=False` is the default).  `pySum` gives the value and
  `pySumOk` tells whether the row is well-typed; `streamline` returns
  `Except.error` exactly when some required sum is ill-typed.
* `groupby(col, as_index=False).agg(sum)` drops rows whose key is
  missing (`dropna=True` default), emits one row per distinct key in
  ascending key order (`sort=True` default), keeps the key column, and
  sums each aggregated column within each group with the same skipna
  semantics.  Dict aggregation with an EMPTY dict — which the source
  reaches whenever merging is on and no column matched any bucket —
  raises `ValueError` ("No objects to concatenate"); `streamline`
  models that error path explicitly.
* Python string comparison is lexicographic on code points; `strLe`
  implements it directly over `Char.toNat`.
-/

namespace CycleView

/-- A table cell: missing (pandas NaN), a string, or an integer count. -/
inductive Cell where
  | missing : Cell
  | str : String → Cell
  | int : Int → Cell
deriving DecidableEq, Repr

/-- The raw input table: column labels (first one is the version column)
and rows of cells aligned with the labels. -/
structure Table where
  headers : List String
  rows : List (List Cell)
deriving DecidableEq, Repr

/-- Python `str(value)` for the cell payloads that reach it.  The
`missing` case is unreachable in the model: every caller tests
`pd.isna` first (Python would give "nan"). -/
def pyStr : Cell → String
  | Cell.missing => "nan"
  | Cell.str s => s
  | Cell.int n => toString n

/-- Python `str.lower()` (ASCII case folding, which covers the labels
and keywords the program works with). -/
def pyLower (s : String) : String := String.mk (s.data.map Char.toLower)

/-- Python `str.strip()`: remove leading and trailing whitespace. -/
def pyStrip (s : String) : String :=
  String.mk (((s.data.dropWhile Char.isWhitespace).reverse.dropWhile Char.isWhitespace).reverse)

/-- Python `str.startswith("v")`: the first character is `v`. -/
def startsWithV (s : String) : Bool :=
  match s.data with
  | [] => false
  | c :: _ => c == 'v'

/-- Helper of `pySplitDot`: split a character list on `.`. -/
def splitDotAux : List Char → List Char → List (List Char)
  | [], acc => [acc.reverse]
  | '.' :: rest, acc => acc.reverse :: splitDotAux rest []
  | c :: rest, acc => splitDotAux rest (c :: acc)

/-- Python `str.split(".")` (the separator is a single character, so
this is a split on the `.` character; `"".split(".") == [""]`). -/
def pySplitDot (s : String) : List String :=
  (splitDotAux s.data []).map String.mk

/-- Source function `normalize_version`: missing values pass through;
otherwise stringify, lowercase, strip, and remove one leading `v`. -/
def normalize_version : Cell → Cell
  | Cell.missing => Cell.missing
  | c =>
    if startsWithV (pyStrip (pyLower (pyStr c))) then
      Cell.str (String.mk ((pyStrip (pyLower (pyStr c))).data.drop 1))
    else Cell.str (pyStrip (pyLower (pyStr c)))

/-- Source function `get_major_minor_version`: missing values pass
through; otherwise split on `.` and keep the first two segments when
there are at least two, else return the value unchanged. -/
def get_major_minor_version : Cell → Cell
  | Cell.missing => Cell.missing
  | c =>
    match pySplitDot (pyStr c) with
    | a :: b :: _ => Cell.str (a ++ "." ++ b)
    | _ => c

/-- Source function `add_version_prefix`: missing values pass through;
otherwise stringify and prepend `v` unless the text already starts
with `v`. -/
def addVersionPrefix : Cell → Cell
  | Cell.missing => Cell.missing
  | c => if startsWithV (pyStr c) then Cell.str (pyStr c) else Cell.str ("v" ++ pyStr c)

/-- Whether `needle` is a prefix of `hay` (character lists). -/
def isPrefixChars : List Char → List Char → Bool
  | [], _ => true
  | _ :: _, [] => false
  | a :: as, b :: bs => a == b && isPrefixChars as bs

/-- Whether `needle` occurs contiguously in `hay` (character lists). -/
def containsChars (needle : List Char) : List Char → Bool
  | [] => isPrefixChars needle []
  | c :: rest => isPrefixChars needle (c :: rest) || containsChars needle rest

/-- Python `needle in hay` on strings: contiguous substring test. -/
def strContains (hay needle : String) : Bool := containsChars needle.data hay.data

/-- The keyword dispatch table of `streamline_from_dataframe_dynamic`,
in the source's (insertion-ordered dict) order. -/
def groups : List (String × List String) :=
  [("Done", ["done"]),
   ("In QA", ["in qa", "qa"]),
   ("In Review", ["in review", "review"]),
   ("To Do", ["to do", "todo"]),
   ("Internal Test", ["internal test"]),
   ("In Progress", ["in progress"])]

/-- The source's `any(k in c.lower() for k in keywords)` for one column label. -/
def labelMatches (kws : List String) (label : String) : Bool :=
  kws.any (fun k => strContains (pyLower label) k)

/-- Whether a label matches the keywords of at least one bucket. -/
def labelMatchesAny (label : String) : Bool :=
  groups.any (fun g => labelMatches g.2 label)

/-- The source's `[c for c in cols if any(k in c.lower() for k in keywords)]`, as
column indices.  `cols` is the full header list, including the first
(version) column, exactly as in the source. -/
def bucketIdxs (headers : List String) (kws : List String) : List Nat :=
  (List.range headers.length).filter (fun i => labelMatches kws (headers.getD i ""))

/-- The bucket assignment: each bucket of `groups` together with its
matching column indices, buckets with no match omitted. -/
def bucketCols (headers : List String) : List (String × List Nat) :=
  groups.filterMap (fun g =>
    if (bucketIdxs headers g.2).isEmpty then none else some (g.1, bucketIdxs headers g.2))

def cellIsInt : Cell → Bool
  | Cell.int _ => true
  | _ => false

def cellInt : Cell → Int
  | Cell.int n => n
  | _ => 0

def cellStr : Cell → String
  | Cell.str s => s
  | _ => ""

def cellIsStr : Cell → Bool
  | Cell.str _ => true
  | _ => false

/-- A cell that a count column may hold: an integer or missing. -/
def intOrMissing : Cell → Bool
  | Cell.int _ => true
  | Cell.missing => true
  | _ => false

/-- Pandas `sum` over a list of cells with `skipna=True`: missing cells
are dropped; all remaining integers are summed (an empty list sums to
0); all remaining strings are concatenated.  A mix of strings and
integers raises `TypeError` in pandas; that case is guarded by
`pySumOk`, and the value produced here for it is never used. -/
def pySum (cs : List Cell) : Cell :=
  if (cs.filter (fun c => c != Cell.missing)).all cellIsInt then
    Cell.int (((cs.filter (fun c => c != Cell.missing)).map cellInt).sum)
  else Cell.str (String.join ((cs.filter (fun c => c != Cell.missing)).map cellStr))

/-- Whether pandas `sum` succeeds on these cells (no string/integer
mix after dropping missing values). -/
def pySumOk (cs : List Cell) : Bool :=
  (cs.filter (fun c => c != Cell.missing)).all cellIsInt
    || (cs.filter (fun c => c != Cell.missing)).all cellIsStr

/-- A row of the streamlined frame: the version cell plus the bucket
columns as an association list in the frame's column order. -/
structure SRow where
  version : Cell
  cells : List (String × Cell)
deriving DecidableEq, Repr

/-- The output table handed back to the caller. -/
structure OutTable where
  cols : List String
  rows : List SRow
deriving DecidableEq, Repr

/-- Normalization of the version column (`working_df.iloc[:, 0]`):
`normalize_version`, then `get_major_minor_version` when minor-version
merging is on. -/
def normVersionCell (mm : Bool) (c : Cell) : Cell :=
  if mm then get_major_minor_version (normalize_version c) else normalize_version c

/-- Apply the version normalization to the first cell of a row. -/
def normalizeRow (mm : Bool) : List Cell → List Cell
  | [] => []
  | v :: rest => normVersionCell mm v :: rest

/-- The working rows after the optional version normalization. -/
def streamRows1 (t : Table) (mv mm : Bool) : List (List Cell) :=
  if mv then t.rows.map (normalizeRow mm) else t.rows

/-- Build one row of `streamlined_data`: the (possibly normalized)
version cell, and for each assigned bucket the element-wise sum of its
matching columns. -/
def buildSRow (bs : List (String × List Nat)) (r : List Cell) : SRow :=
  ⟨r.getD 0 Cell.missing, bs.map (fun b => (b.1, pySum (b.2.map (fun i => r.getD i Cell.missing))))⟩

/-- Well-typedness of all bucket sums of one row. -/
def buildSRowOk (bs : List (String × List Nat)) (r : List Cell) : Bool :=
  bs.all (fun b => pySumOk (b.2.map (fun i => r.getD i Cell.missing)))

/-- The rows of `streamlined_df` before the optional grouping. -/
def streamSRows (t : Table) (mv mm : Bool) : List SRow :=
  (streamRows1 t mv mm).map (buildSRow (bucketCols t.headers))

/-- The group key of a row for `groupby("Version")`: `none` for a
missing version (pandas drops those rows, `dropna=True`).  After
normalization the version cell is always a string; the integer case is
unreachable there and mirrors Python's `str()` text. -/
def rowKey (r : SRow) : Option String :=
  match r.version with
  | Cell.missing => none
  | Cell.str s => some s
  | Cell.int n => some (toString n)

/-- Lexicographic code-point comparison of character lists, as Python
compares strings. -/
def charListLe : List Char → List Char → Bool
  | [], _ => true
  | _ :: _, [] => false
  | a :: as, b :: bs => a.toNat < b.toNat || (a.toNat == b.toNat && charListLe as bs)

/-- Python `s <= t` on strings. -/
def strLe (s t : String) : Bool := charListLe s.data t.data

/-- The distinct non-missing group keys in ascending (Python string)
order, as `groupby(..., sort=True)` produces them. -/
def sortedKeys (srows : List SRow) : List String :=
  List.insertionSort (fun a b => strLe a b = true) (srows.filterMap rowKey).dedup

/-- The aggregated row of one group: the key as the version value and,
for each bucket column, the skipna sum of the group's cells. -/
def groupRow (labels : List String) (srows : List SRow) (k : String) : SRow :=
  ⟨Cell.str k,
    labels.map (fun l =>
      (l, pySum ((srows.filter (fun r => rowKey r == some k)).map
        (fun r => (r.cells.lookup l).getD Cell.missing))))⟩

/-- The grouping step `groupby("Version", as_index=False).agg(...)`,
summing every bucket column within each group. -/
def mergeGroups (labels : List String) (srows : List SRow) : List SRow :=
  (sortedKeys srows).map (groupRow labels srows)

/-- Well-typedness of all per-group sums. -/
def mergeGroupsOk (labels : List String) (srows : List SRow) : Bool :=
  (sortedKeys srows).all (fun k =>
    labels.all (fun l =>
      pySumOk ((srows.filter (fun r => rowKey r == some k)).map
        (fun r => (r.cells.lookup l).getD Cell.missing))))

/-- The fixed canonical column order of the source. -/
def desired_order : List String :=
  ["Version", "In QA", "In Review", "Internal Test", "To Do", "In Progress", "Done"]

/-- The source's final column selection is
`[c for c in desired_order if c in streamlined_df.columns]`, and the
streamlined frame's columns are exactly "Version" followed by the
assigned bucket labels.  "Version" heads `desired_order` and is always
a column, and none of the remaining canonical names equals "Version",
so the selection is "Version" followed by this tail: the canonical
bucket names that were assigned at least one column. -/
def finalTailOf (headers : List String) : List String :=
  (desired_order.drop 1).filter (fun l => ((bucketCols headers).map Prod.fst).contains l)

/-- The final column list (`final_columns` in the source). -/
def finalColsOf (headers : List String) : List String := "Version" :: finalTailOf headers

/-- One output row: reorder the bucket cells into the final column
order and apply the version prefix.  `finalTail` is the final column
list without its leading "Version". -/
def outRow (finalTail : List String) (r : SRow) : SRow :=
  ⟨addVersionPrefix r.version, finalTail.map (fun l => (l, (r.cells.lookup l).getD Cell.missing))⟩

/-- The full pipeline of `streamline_from_dataframe_dynamic`, assuming
every sum it takes is well-typed (see `streamline`). -/
def streamlineCore (t : Table) (mv mm : Bool) : OutTable :=
  let srows := streamSRows t mv mm
  let labels := (bucketCols t.headers).map Prod.fst
  let srows2 := if mv then mergeGroups labels srows else srows
  ⟨finalColsOf t.headers, srows2.map (outRow (finalTailOf t.headers))⟩

/-- Whether the whole pipeline is free of ill-typed sums (pandas would
otherwise raise `TypeError`). -/
def streamlineOk (t : Table) (mv mm : Bool) : Bool :=
  (streamRows1 t mv mm).all (buildSRowOk (bucketCols t.headers)) &&
    (!mv || mergeGroupsOk ((bucketCols t.headers).map Prod.fst) (streamSRows t mv mm))

/-- Source function `streamline_from_dataframe_dynamic(df, merge_versions,
merge_minor_versions)`: the streamlined table, or a pandas error.
Two error paths of the real code are modelled:

* when `merge_versions` is on and no column matched any bucket, the
  grouping step runs `groupby("Version", as_index=False).agg(d)` with
  an empty aggregation dict `d`; pandas' dict aggregation concatenates
  one result per dict entry, and concatenating zero objects raises
  `ValueError` ("No objects to concatenate") — the program never
  returns a table for such inputs under merging;
* when some required sum mixes strings and integers, the element-wise
  or per-group summation raises `TypeError` (see `pySumOk`).

No column sums exist when the bucket assignment is empty, so the two
conditions are mutually exclusive and the order of the tests does not
matter. -/
def streamline (t : Table) (mv mm : Bool) : Except String OutTable :=
  if mv && (bucketCols t.headers).isEmpty then Except.error "ValueError"
  else if streamlineOk t mv mm then Except.ok (streamlineCore t mv mm)
  else Except.error "TypeError"

/-! ### Helper lemmas -/

theorem charListLe_total (x : List Char) : ∀ y : List Char, charListLe x y = true ∨ charListLe y x = true := by
  induction x with
  | nil => intro y; exact Or.inl rfl
  | cons a as ih =>
    intro y
    cases y with
    | nil => exact Or.inr rfl
    | cons b bs =>
      by_cases hab : a.toNat < b.toNat
      · left; simp [charListLe, hab]
      · by_cases hba : b.toNat < a.toNat
        · right; simp [charListLe, hba]
        · have hEq : a.toNat = b.toNat := by omega
          rcases ih bs with h | h
          · left; simp [charListLe, hEq, h]
          · right; simp [charListLe, hEq.symm, h]

theorem charListLe_trans : ∀ x y z : List Char, charListLe x y = true → charListLe y z = true → charListLe x z = true := by
  intro x
  induction x with
  | nil => intro y z _ _; rfl
  | cons a as ih =>
    intro y z hxy hyz
    cases y with
    | nil => simp [charListLe] at hxy
    | cons b bs =>
      cases z with
      | nil => simp [charListLe] at hyz
      | cons c cs =>
        simp only [charListLe, Bool.or_eq_true, Bool.and_eq_true, decide_eq_true_eq,
          beq_iff_eq] at hxy hyz ⊢
        rcases hxy with h1 | ⟨h1, h1t⟩
        · rcases hyz with h2 | ⟨h2, _⟩
          · left; omega
          · left; omega
        · rcases hyz with h2 | ⟨h2, h2t⟩
          · left; omega
          · right; exact ⟨by omega, ih bs cs h1t h2t⟩

instance strLeIsTotal : IsTotal String (fun a b => strLe a b = true) :=
  ⟨fun a b => charListLe_total a.data b.data⟩

instance strLeIsTrans : IsTrans String (fun a b => strLe a b = true) :=
  ⟨fun a b c hab hbc => charListLe_trans a.data b.data c.data hab hbc⟩

theorem startsWithV_vappend (s : String) : startsWithV ("v" ++ s) = true := by
  cases s with
  | mk d => rfl

theorem vappend_inj {a b : String} (h : "v" ++ a = "v" ++ b) : a = b := by
  cases a with
  | mk da =>
    cases b with
    | mk db =>
      have hd : ('v' :: da) = ('v' :: db) := congrArg String.data h
      simp only [List.cons.injEq] at hd
      exact congrArg String.mk hd.2

theorem addVersionPrefix_str (s : String) :
    addVersionPrefix (Cell.str s) = Cell.str (if startsWithV s then s else "v" ++ s) := by
  simp only [addVersionPrefix, pyStr]
  split <;> simp_all

theorem addVersionPrefix_ne_missing {c : Cell} (h : c ≠ Cell.missing) :
    addVersionPrefix c ≠ Cell.missing := by
  cases c with
  | missing => exact absurd rfl h
  | str s => simp only [addVersionPrefix]; split <;> simp
  | int n => simp only [addVersionPrefix]; split <;> simp

theorem normalize_version_ne_missing {c : Cell} (h : c ≠ Cell.missing) :
    normalize_version c ≠ Cell.missing := by
  cases c with
  | missing => exact absurd rfl h
  | str s => simp only [normalize_version]; split <;> simp
  | int n => simp only [normalize_version]; split <;> simp

theorem get_major_minor_ne_missing {c : Cell} (h : c ≠ Cell.missing) :
    get_major_minor_version c ≠ Cell.missing := by
  cases c with
  | missing => exact absurd rfl h
  | str s =>
    show (match pySplitDot (pyStr (Cell.str s)) with
      | a :: b :: _ => Cell.str (a ++ "." ++ b)
      | _ => Cell.str s) ≠ Cell.missing
    rcases pySplitDot (pyStr (Cell.str s)) with _ | ⟨a, _ | ⟨b, rest⟩⟩ <;> simp
  | int n =>
    show (match pySplitDot (pyStr (Cell.int n)) with
      | a :: b :: _ => Cell.str (a ++ "." ++ b)
      | _ => Cell.int n) ≠ Cell.missing
    rcases pySplitDot (pyStr (Cell.int n)) with _ | ⟨a, _ | ⟨b, rest⟩⟩ <;> simp

theorem normVersionCell_ne_missing {c : Cell} (mm : Bool) (h : c ≠ Cell.missing) :
    normVersionCell mm c ≠ Cell.missing := by
  unfold normVersionCell
  cases mm with
  | false => simpa using normalize_version_ne_missing h
  | true => simpa using get_major_minor_ne_missing (normalize_version_ne_missing h)

theorem pySum_ne_missing (cs : List Cell) : pySum cs ≠ Cell.missing := by
  unfold pySum
  by_cases h : (cs.filter (fun c => c != Cell.missing)).all cellIsInt <;> simp [h]

theorem pySum_filter_eq {cs ds : List Cell}
    (h : cs.filter (fun c => c != Cell.missing) = ds.filter (fun c => c != Cell.missing)) :
    pySum cs = pySum ds := by
  unfold pySum
  rw [h]

theorem pySumOk_filter_eq {cs ds : List Cell}
    (h : cs.filter (fun c => c != Cell.missing) = ds.filter (fun c => c != Cell.missing)) :
    pySumOk cs = pySumOk ds := by
  unfold pySumOk
  rw [h]

theorem filter_missing_middle (l₁ l₂ : List Cell) :
    (l₁ ++ Cell.missing :: l₂).filter (fun c => c != Cell.missing)
      = (l₁ ++ l₂).filter (fun c => c != Cell.missing) := by
  simp [List.filter_append, List.filter_cons]

theorem pySum_int {l : List Cell} (h : ∀ c ∈ l, intOrMissing c = true) :
    pySum l = Cell.int ((l.map cellInt).sum) := by
  have hall : (l.filter (fun c => c != Cell.missing)).all cellIsInt = true := by
    rw [List.all_eq_true]
    intro x hx
    rcases List.mem_filter.mp hx with ⟨hxl, hxne⟩
    have := h x hxl
    cases x <;> simp_all [intOrMissing, cellIsInt]
  have hsum : ((l.filter (fun c => c != Cell.missing)).map cellInt).sum = (l.map cellInt).sum := by
    induction l with
    | nil => rfl
    | cons c cs ih =>
      have hc := h c (by simp)
      have ihh := ih (fun x hx => h x (by simp [hx]))
      cases c <;> simp_all [List.filter_cons, cellInt, intOrMissing]
  unfold pySum
  rw [hall]
  simp only [if_true, hsum]

theorem pySumOk_int {l : List Cell} (h : ∀ c ∈ l, intOrMissing c = true) :
    pySumOk l = true := by
  have hall : (l.filter (fun c => c != Cell.missing)).all cellIsInt = true := by
    rw [List.all_eq_true]
    intro x hx
    rcases List.mem_filter.mp hx with ⟨hxl, hxne⟩
    have := h x hxl
    cases x <;> simp_all [intOrMissing, cellIsInt]
  unfold pySumOk
  simp [hall]

theorem lookup_label_map {β : Type} (f : String → β) {ls : List String} {l : String}
    (h : l ∈ ls) : (ls.map (fun x => (x, f x))).lookup l = some (f l) := by
  induction ls with
  | nil => cases h
  | cons x xs ih =>
    rcases List.mem_cons.mp h with rfl | hmem
    · simp [List.lookup]
    · by_cases hx : l = x
      · subst hx; simp [List.lookup]
      · have : (l == x) = false := beq_eq_false_iff_ne.mpr hx
        simp [List.lookup, this, ih hmem]

theorem lookup_fst_map {β γ : Type} (f : String × β → γ) {bs : List (String × β)}
    {b : String × β} (hnd : (bs.map Prod.fst).Nodup) (hb : b ∈ bs) :
    (bs.map (fun x => (x.1, f x))).lookup b.1 = some (f b) := by
  induction bs with
  | nil => cases hb
  | cons x xs ih =>
    rcases List.mem_cons.mp hb with rfl | hmem
    · simp [List.lookup]
    · have hne : b.1 ≠ x.1 := by
        intro hEq
        have : b.1 ∈ xs.map Prod.fst := List.mem_map_of_mem Prod.fst hmem
        rw [hEq] at this
        exact (List.nodup_cons.mp hnd).1 this
      have hbeq : (b.1 == x.1) = false := beq_eq_false_iff_ne.mpr hne
      simp [List.lookup, hbeq, ih (List.nodup_cons.mp hnd).2 hmem]

theorem mem_bucketIdxs {hs kws : List String} {i : Nat} :
    i ∈ bucketIdxs hs kws ↔ i < hs.length ∧ labelMatches kws (hs.getD i "") = true := by
  unfold bucketIdxs
  rw [List.mem_filter, List.mem_range]

theorem mem_bucketCols {hs : List String} {p : String × List Nat} :
    p ∈ bucketCols hs ↔ ∃ kws, (p.1, kws) ∈ groups ∧ p.2 = bucketIdxs hs kws ∧ p.2 ≠ [] := by
  unfold bucketCols
  rw [List.mem_filterMap]
  constructor
  · rintro ⟨g, hg, hsome⟩
    by_cases he : (bucketIdxs hs g.2).isEmpty
    · simp [he] at hsome
    · simp only [he, Bool.false_eq_true, if_false, Option.some.injEq] at hsome
      refine ⟨g.2, ?_, ?_, ?_⟩
      · rw [← hsome]; exact hg
      · rw [← hsome]
      · rw [← hsome]
        simpa [List.isEmpty_iff] using he
  · rintro ⟨kws, hkg, hpe, hne⟩
    refine ⟨(p.1, kws), hkg, ?_⟩
    rw [hpe] at hne
    have he : (bucketIdxs hs kws).isEmpty = false := by
      cases hb : bucketIdxs hs kws with
      | nil => exact absurd hb hne
      | cons a as => rfl
    rw [he]
    simp [← hpe]

theorem groups_fst_nodup : (groups.map Prod.fst).Nodup := by decide

theorem filterMap_guard_fst_sublist {α β γ : Type} (c : α × β → Bool) (h : α × β → γ) :
    ∀ gs : List (α × β),
      ((gs.filterMap (fun g => if c g then none else some (g.1, h g))).map Prod.fst).Sublist
        (gs.map Prod.fst) := by
  intro gs
  induction gs with
  | nil => exact List.Sublist.refl _
  | cons g tl ih =>
    by_cases hc : c g
    · simp only [List.filterMap_cons, hc, if_true, List.map_cons]
      exact ih.cons g.1
    · simp only [List.filterMap_cons, hc, Bool.false_eq_true, if_false, List.map_cons]
      exact ih.cons₂ g.1

theorem bucketCols_fst_nodup (hs : List String) : ((bucketCols hs).map Prod.fst).Nodup := by
  have hsub := filterMap_guard_fst_sublist
    (fun g : String × List String => (bucketIdxs hs g.2).isEmpty)
    (fun g => bucketIdxs hs g.2) groups
  exact hsub.nodup groups_fst_nodup

theorem mem_labels_of_mem_bucketCols {hs : List String} {p : String × List Nat}
    (h : p ∈ bucketCols hs) : p.1 ∈ (bucketCols hs).map Prod.fst :=
  List.mem_map_of_mem Prod.fst h

theorem groups_labels_desired : ∀ l ∈ groups.map Prod.fst, l ∈ desired_order.drop 1 := by decide

theorem mem_finalTail {hs : List String} {l : String} :
    l ∈ finalTailOf hs ↔
      l ∈ desired_order.drop 1 ∧ l ∈ (bucketCols hs).map Prod.fst := by
  unfold finalTailOf
  rw [List.mem_filter]
  constructor
  · rintro ⟨h1, h2⟩
    exact ⟨h1, by simpa [List.elem_iff] using h2⟩
  · rintro ⟨h1, h2⟩
    exact ⟨h1, by simpa [List.elem_iff] using h2⟩

theorem streamline_eq_ok {t : Table} {mv mm : Bool} {o : OutTable} :
    streamline t mv mm = Except.ok o ↔
      (mv && (bucketCols t.headers).isEmpty) = false
        ∧ streamlineOk t mv mm = true ∧ o = streamlineCore t mv mm := by
  unfold streamline
  cases h1 : (mv && (bucketCols t.headers).isEmpty) with
  | true => simp [h1]
  | false => by_cases h2 : streamlineOk t mv mm <;> simp [h1, h2, eq_comm]

theorem core_cols (t : Table) (mv mm : Bool) :
    (streamlineCore t mv mm).cols = finalColsOf t.headers := rfl

theorem core_rows_merge (t : Table) (mm : Bool) :
    (streamlineCore t true mm).rows
      = (sortedKeys (streamSRows t true mm)).map
          (fun k => outRow (finalTailOf t.headers)
            (groupRow ((bucketCols t.headers).map Prod.fst) (streamSRows t true mm) k)) := by
  show ((mergeGroups _ _).map _) = _
  unfold mergeGroups
  rw [List.map_map]
  rfl

theorem core_rows_nomerge (t : Table) (mm : Bool) :
    (streamlineCore t false mm).rows
      = (streamSRows t false mm).map (outRow (finalTailOf t.headers)) := rfl

theorem sortedKeys_nodup (srows : List SRow) : (sortedKeys srows).Nodup :=
  (List.perm_insertionSort _ _).symm.nodup (List.nodup_dedup _)

theorem sortedKeys_pairwise (srows : List SRow) :
    List.Pairwise (fun a b => strLe a b = true) (sortedKeys srows) :=
  List.sorted_insertionSort (fun a b => strLe a b = true) (srows.filterMap rowKey).dedup

theorem mem_sortedKeys {srows : List SRow} {k : String} :
    k ∈ sortedKeys srows ↔ ∃ r ∈ srows, rowKey r = some k := by
  unfold sortedKeys
  rw [List.Perm.mem_iff (List.perm_insertionSort _ _), List.mem_dedup, List.mem_filterMap]

theorem getD_of_le {α : Type} (l : List α) (d : α) : ∀ i, l.length ≤ i → l.getD i d = d := by
  induction l with
  | nil => intro i _; cases i <;> rfl
  | cons a as ih =>
    intro i hi
    cases i with
    | zero => simp at hi
    | succ j => exact ih j (by simpa using hi)

theorem normalizeRow_getD_pos (mm : Bool) (r : List Cell) (i : Nat) (d : Cell) (hi : i ≠ 0) :
    (normalizeRow mm r).getD i d = r.getD i d := by
  cases r with
  | nil => rfl
  | cons v rest =>
    cases i with
    | zero => exact absurd rfl hi
    | succ j => rfl

theorem normalizeRow_length (mm : Bool) (r : List Cell) : (normalizeRow mm r).length = r.length := by
  cases r <;> rfl

theorem zero_notin_buckets {hs : List String} (hver : labelMatchesAny (hs.getD 0 "") = false) :
    ∀ p ∈ bucketCols hs, 0 ∉ p.2 := by
  intro p hp h0
  obtain ⟨kws, hg, hpe, _⟩ := mem_bucketCols.mp hp
  rw [hpe] at h0
  have hm := (mem_bucketIdxs.mp h0).2
  unfold labelMatchesAny at hver
  rw [← Bool.not_eq_true, List.any_eq_true] at hver
  exact hver ⟨(p.1, kws), hg, hm⟩

theorem bucket_present {hs kws : List String} {l : String} {i : Nat}
    (hg : (l, kws) ∈ groups) (hi : i < hs.length)
    (hm : labelMatches kws (hs.getD i "") = true) :
    (l, bucketIdxs hs kws) ∈ bucketCols hs ∧ i ∈ bucketIdxs hs kws := by
  have h0 : i ∈ bucketIdxs hs kws := mem_bucketIdxs.mpr ⟨hi, hm⟩
  exact ⟨mem_bucketCols.mpr ⟨kws, hg, rfl, List.ne_nil_of_mem h0⟩, h0⟩

theorem addVersionPrefix_of_startsWithV {s : String} (h : startsWithV s = true) :
    addVersionPrefix (Cell.str s) = Cell.str s := by
  rw [addVersionPrefix_str, if_pos h]

theorem addVersionPrefix_eq {c : Cell} (h : c ≠ Cell.missing) :
    addVersionPrefix c
      = Cell.str (if startsWithV (pyStr c) then pyStr c else "v" ++ pyStr c) := by
  cases c with
  | missing => exact absurd rfl h
  | str s => simp only [addVersionPrefix]; split <;> simp_all
  | int n => simp only [addVersionPrefix]; split <;> simp_all

/-! ### The claims -/

/-- Claim C9: applying the version-prefix operation twice gives the
same result as applying it once, for every non-missing value. -/
theorem C9_addVersionPrefix_idempotent (c : Cell) (h : c ≠ Cell.missing) :
    addVersionPrefix (addVersionPrefix c) = addVersionPrefix c := by
  rw [addVersionPrefix_eq h]
  by_cases hv : startsWithV (pyStr c) = true
  · rw [if_pos hv]
    exact addVersionPrefix_of_startsWithV hv
  · rw [if_neg hv]
    exact addVersionPrefix_of_startsWithV (startsWithV_vappend _)

/-- Witness for C9 at the concrete value "1.2". -/
theorem C9_witness :
    addVersionPrefix (addVersionPrefix (Cell.str "1.2")) = addVersionPrefix (Cell.str "1.2") :=
  C9_addVersionPrefix_idempotent (Cell.str "1.2") (by decide)

/-- Claim C8: on the concrete input with versions "1.17", "1.17.2",
"1.17.5" and Done counts 0, 1, 0, streamlining with both merge flags
on returns exactly one row, for version "v1.17", with Done 1. -/
theorem C8_concrete_scenario :
    streamline ⟨["Version", "Done"],
        [[Cell.str "1.17", Cell.int 0], [Cell.str "1.17.2", Cell.int 1],
         [Cell.str "1.17.5", Cell.int 0]]⟩ true true
      = Except.ok ⟨["Version", "Done"], [⟨Cell.str "v1.17", [("Done", Cell.int 1)]⟩]⟩ := rfl

/-- Claim C10: a missing cell contributes zero to a bucket's sums: the
row-level and group-level sums (`pySum`, and its well-typedness guard)
are unchanged when a missing cell is removed from the summed cells,
and in any successful output no bucket cell is ever missing. -/
theorem C10_missing_contributes_zero :
    (∀ l₁ l₂ : List Cell,
        pySum (l₁ ++ Cell.missing :: l₂) = pySum (l₁ ++ l₂)
          ∧ pySumOk (l₁ ++ Cell.missing :: l₂) = pySumOk (l₁ ++ l₂))
      ∧ (∀ (t : Table) (mv mm : Bool) (o : OutTable), streamline t mv mm = Except.ok o →
          ∀ r ∈ o.rows, ∀ p ∈ r.cells, p.2 ≠ Cell.missing) := by
  constructor
  · intro l₁ l₂
    exact ⟨pySum_filter_eq (filter_missing_middle l₁ l₂),
      pySumOk_filter_eq (filter_missing_middle l₁ l₂)⟩
  · intro t mv mm o h r hr p hp
    obtain ⟨hemp, hok, rfl⟩ := streamline_eq_ok.mp h
    cases mv with
    | true =>
      rw [core_rows_merge] at hr
      obtain ⟨k, hk, rfl⟩ := List.mem_map.mp hr
      obtain ⟨l, hl, rfl⟩ := List.mem_map.mp hp
      show ((groupRow ((bucketCols t.headers).map Prod.fst)
        (streamSRows t true mm) k).cells.lookup l).getD Cell.missing ≠ Cell.missing
      have hlook := lookup_label_map
        (fun l' => pySum (((streamSRows t true mm).filter
          (fun r => rowKey r == some k)).map
            (fun r => (r.cells.lookup l').getD Cell.missing)))
        (mem_finalTail.mp hl).2
      rw [show (groupRow ((bucketCols t.headers).map Prod.fst)
          (streamSRows t true mm) k).cells
        = ((bucketCols t.headers).map Prod.fst).map
            (fun l' => (l', pySum (((streamSRows t true mm).filter
              (fun r => rowKey r == some k)).map
                (fun r => (r.cells.lookup l').getD Cell.missing)))) from rfl]
      rw [hlook]
      simpa using pySum_ne_missing _
    | false =>
      rw [core_rows_nomerge] at hr
      obtain ⟨rs, hrs, rfl⟩ := List.mem_map.mp hr
      obtain ⟨l, hl, rfl⟩ := List.mem_map.mp hp
      show ((rs.cells.lookup l).getD Cell.missing) ≠ Cell.missing
      obtain ⟨r1, hr1, rfl⟩ := List.mem_map.mp hrs
      obtain ⟨b, hb, rfl⟩ := List.mem_map.mp (mem_finalTail.mp hl).2
      have hlook := lookup_fst_map
        (fun x => pySum (x.2.map (fun i => r1.getD i Cell.missing)))
        (bucketCols_fst_nodup t.headers) hb
      rw [show (buildSRow (bucketCols t.headers) r1).cells
        = (bucketCols t.headers).map
            (fun x => (x.1, pySum (x.2.map (fun i => r1.getD i Cell.missing)))) from rfl]
      rw [hlook]
      simpa using pySum_ne_missing _

/-- Witness for C10: both parts instantiated at concrete inputs (a sum
with a missing cell among integers, and the concrete streamlined
table of the Done-column scenario). -/
theorem C10_witness :
    (pySum ([Cell.int 1] ++ Cell.missing :: [Cell.int 2]) = pySum ([Cell.int 1] ++ [Cell.int 2])
        ∧ pySumOk ([Cell.int 1] ++ Cell.missing :: [Cell.int 2])
            = pySumOk ([Cell.int 1] ++ [Cell.int 2]))
      ∧ (("Done", Cell.int 0) : String × Cell).2 ≠ Cell.missing :=
  ⟨C10_missing_contributes_zero.1 [Cell.int 1] [Cell.int 2],
   C10_missing_contributes_zero.2
     ⟨["Version", "Done"], [[Cell.missing, Cell.int 1], [Cell.str "1", Cell.missing]]⟩ true true
     ⟨["Version", "Done"], [⟨Cell.str "v1", [("Done", Cell.int 0)]⟩]⟩ rfl
     ⟨Cell.str "v1", [("Done", Cell.int 0)]⟩ (by decide) ("Done", Cell.int 0) (by decide)⟩

/-- Claim C6: a column whose label matches the keywords of several
buckets is selected into each of those buckets' matching columns;
matching does not remove a column from consideration by later
buckets. -/
theorem C6_multi_bucket_matching (headers : List String) (i : Nat)
    (l₁ : String) (k₁ : List String) (l₂ : String) (k₂ : List String)
    (h₁ : (l₁, k₁) ∈ groups) (h₂ : (l₂, k₂) ∈ groups)
    (hi : i < headers.length)
    (m₁ : labelMatches k₁ (headers.getD i "") = true)
    (m₂ : labelMatches k₂ (headers.getD i "") = true) :
    ((l₁, bucketIdxs headers k₁) ∈ bucketCols headers ∧ i ∈ bucketIdxs headers k₁)
      ∧ ((l₂, bucketIdxs headers k₂) ∈ bucketCols headers ∧ i ∈ bucketIdxs headers k₂) :=
  ⟨bucket_present h₁ hi m₁, bucket_present h₂ hi m₂⟩

/-- Witness for C6: the label "QA Review" matches both the "In QA" and
the "In Review" bucket, so column 1 is counted into both. -/
theorem C6_witness :
    ((("In QA", bucketIdxs ["Version", "QA Review"] ["in qa", "qa"]) ∈ bucketCols ["Version", "QA Review"]
        ∧ 1 ∈ bucketIdxs ["Version", "QA Review"] ["in qa", "qa"])
      ∧ (("In Review", bucketIdxs ["Version", "QA Review"] ["in review", "review"]) ∈ bucketCols ["Version", "QA Review"]
        ∧ 1 ∈ bucketIdxs ["Version", "QA Review"] ["in review", "review"])) :=
  C6_multi_bucket_matching ["Version", "QA Review"] 1 "In QA" ["in qa", "qa"]
    "In Review" ["in review", "review"] (by decide) (by decide) (by decide) (by decide) (by decide)

/-- Claim C7: with version merging on, the output rows are ordered
strictly ascending by the grouped version label under Python's string
order (`strLe`, lexicographic on code points — so "1.17" precedes
"1.2"), and each displayed version is the prefixed group label in that
order. -/
theorem C7_merge_output_sorted (t : Table) (mm : Bool) (o : OutTable)
    (h : streamline t true mm = Except.ok o) :
    List.Pairwise (fun a b => strLe a b = true ∧ a ≠ b) (sortedKeys (streamSRows t true mm))
      ∧ o.rows.map (fun r => r.version)
          = (sortedKeys (streamSRows t true mm)).map (fun k => addVersionPrefix (Cell.str k)) := by
  obtain ⟨hemp, hok, rfl⟩ := streamline_eq_ok.mp h
  constructor
  · exact (sortedKeys_pairwise _).and (sortedKeys_nodup _)
  · rw [core_rows_merge, List.map_map]
    rfl

/-- Witness for C7 at a concrete two-version table with a "Done"
column: "1.17" sorts before "1.2". -/
theorem C7_witness :
    List.Pairwise (fun a b => strLe a b = true ∧ a ≠ b)
        (sortedKeys (streamSRows
          ⟨["Version", "Done"], [[Cell.str "1.2", Cell.int 1], [Cell.str "1.17", Cell.int 2]]⟩
          true true))
      ∧ (⟨["Version", "Done"],
            [⟨Cell.str "v1.17", [("Done", Cell.int 2)]⟩,
             ⟨Cell.str "v1.2", [("Done", Cell.int 1)]⟩]⟩ : OutTable).rows.map (fun r => r.version)
          = (sortedKeys (streamSRows
              ⟨["Version", "Done"], [[Cell.str "1.2", Cell.int 1], [Cell.str "1.17", Cell.int 2]]⟩
              true true)).map (fun k => addVersionPrefix (Cell.str k)) :=
  C7_merge_output_sorted
    ⟨["Version", "Done"], [[Cell.str "1.2", Cell.int 1], [Cell.str "1.17", Cell.int 2]]⟩ true
    ⟨["Version", "Done"],
      [⟨Cell.str "v1.17", [("Done", Cell.int 2)]⟩, ⟨Cell.str "v1.2", [("Done", Cell.int 1)]⟩]⟩
    rfl

/-- Counterexample to claim C5 as stated: the classifier matches
against ALL column labels, including the designated first (version)
column.  With headers ["qa", "Done"], the version column (index 0) is
selected into the "In QA" bucket, and its values are then summed into
that bucket's output column: on the one-row table with version "3" and
Done 7, the output contains an "In QA" column holding the version
text "3". -/
theorem C5_counterexample :
    ("In QA", [0]) ∈ bucketCols ["qa", "Done"]
      ∧ streamline ⟨["qa", "Done"], [[Cell.str "3", Cell.int 7]]⟩ false true
          = Except.ok ⟨["Version", "In QA", "Done"],
              [⟨Cell.str "v3", [("In QA", Cell.str "3"), ("Done", Cell.int 7)]⟩]⟩ :=
  ⟨by decide, rfl⟩

/-- Claim C5 amended: the first (version) column is kept out of every
bucket exactly when its label matches no bucket keywords; when its
label does contain a bucket keyword it is selected like any other
column. -/
theorem C5_version_column_selection (headers : List String) (hlen : 0 < headers.length) :
    (∃ p ∈ bucketCols headers, 0 ∈ p.2) ↔ labelMatchesAny (headers.getD 0 "") = true := by
  constructor
  · rintro ⟨p, hp, h0⟩
    obtain ⟨kws, hg, hpe, _⟩ := mem_bucketCols.mp hp
    rw [hpe] at h0
    unfold labelMatchesAny
    rw [List.any_eq_true]
    exact ⟨(p.1, kws), hg, (mem_bucketIdxs.mp h0).2⟩
  · intro hm
    unfold labelMatchesAny at hm
    rw [List.any_eq_true] at hm
    obtain ⟨g, hg, hmatch⟩ := hm
    have hg2 : (g.1, g.2) ∈ groups := by simpa using hg
    have hpres := bucket_present hg2 hlen hmatch
    exact ⟨(g.1, bucketIdxs headers g.2), hpres.1, hpres.2⟩

/-- Witness for C5's amended characterization at headers ["qa", "Done"]. -/
theorem C5_witness :
    (∃ p ∈ bucketCols ["qa", "Done"], 0 ∈ p.2)
      ↔ labelMatchesAny ((["qa", "Done"] : List String).getD 0 "") = true :=
  C5_version_column_selection ["qa", "Done"] (by decide)

/-- Counterexample to claim C3 as stated: with version merging on, a
row whose version is missing is dropped by the grouping (pandas
`groupby` excludes missing keys), not kept as its own group.  The
input has two rows — one with a missing version and Done 5, one with
version "1" and Done 1 — and the output has a single row "v1" with
Done 1: the missing-version row and its count 5 are gone. -/
theorem C3_counterexample :
    streamline ⟨["Version", "Done"],
        [[Cell.missing, Cell.int 5], [Cell.str "1", Cell.int 1]]⟩ true true
      = Except.ok ⟨["Version", "Done"], [⟨Cell.str "v1", [("Done", Cell.int 1)]⟩]⟩ := rfl

/-- Claim C3 amended: a missing version value passes unchanged through
normalization, truncation and prefixing, but with version merging on
the rows with a missing version are dropped from the output (no
output row carries a missing version; they are not merged into
another group either, since each group sums only rows whose key
equals its own label). -/
theorem C3_missing_passthrough_and_dropped :
    (normalize_version Cell.missing = Cell.missing
        ∧ get_major_minor_version Cell.missing = Cell.missing
        ∧ addVersionPrefix Cell.missing = Cell.missing)
      ∧ (∀ (t : Table) (mm : Bool) (o : OutTable), streamline t true mm = Except.ok o →
          ∀ r ∈ o.rows, r.version ≠ Cell.missing) := by
  refine ⟨⟨rfl, rfl, rfl⟩, ?_⟩
  intro t mm o h r hr
  obtain ⟨hemp, hok, rfl⟩ := streamline_eq_ok.mp h
  rw [core_rows_merge] at hr
  obtain ⟨k, hk, rfl⟩ := List.mem_map.mp hr
  show addVersionPrefix (Cell.str k) ≠ Cell.missing
  exact addVersionPrefix_ne_missing (by simp)

/-- Witness for C3 applied at the two-row table with a missing
version. -/
theorem C3_witness :
    (⟨Cell.str "v1", [("Done", Cell.int 1)]⟩ : SRow).version ≠ Cell.missing :=
  C3_missing_passthrough_and_dropped.2
    ⟨["Version", "Done"], [[Cell.missing, Cell.int 5], [Cell.str "1", Cell.int 1]]⟩ true
    ⟨["Version", "Done"], [⟨Cell.str "v1", [("Done", Cell.int 1)]⟩]⟩ rfl
    ⟨Cell.str "v1", [("Done", Cell.int 1)]⟩ (by decide)

/-- Counterexample to claim C1 as stated: `normalize_version` strips
only one leading "v", so the raw versions "vv1" and "1" normalize to
the distinct group keys "v1" and "1"; the formatter then re-applies
the prefix and both display as "v1" — two output rows with the same
Version value (the "Done" column keeps the bucket assignment
nonempty, so the aggregation succeeds). -/
theorem C1_counterexample :
    streamline ⟨["Version", "Done"],
        [[Cell.str "vv1", Cell.int 1], [Cell.str "1", Cell.int 2]]⟩ true true
      = Except.ok ⟨["Version", "Done"],
          [⟨Cell.str "v1", [("Done", Cell.int 2)]⟩, ⟨Cell.str "v1", [("Done", Cell.int 1)]⟩]⟩
    ∧ ¬ (([⟨Cell.str "v1", [("Done", Cell.int 2)]⟩, ⟨Cell.str "v1", [("Done", Cell.int 1)]⟩] :
        List SRow).map (fun r => r.version)).Nodup :=
  ⟨rfl, by decide⟩

/-- Claim C1 amended: with version merging on, the group keys are
distinct, and the displayed (prefixed) Version values are pairwise
distinct provided no group key itself begins with "v" (a normalized
key can begin with "v" only when the raw value began with a doubled
"v", and then the re-applied prefix can collide with another
group). -/
theorem C1_unique_versions (t : Table) (mm : Bool) (o : OutTable)
    (h : streamline t true mm = Except.ok o)
    (hv : ∀ k ∈ sortedKeys (streamSRows t true mm), startsWithV k = false) :
    (o.rows.map (fun r => r.version)).Nodup := by
  obtain ⟨hemp, hok, rfl⟩ := streamline_eq_ok.mp h
  rw [core_rows_merge, List.map_map]
  have hmapeq : ∀ k ∈ sortedKeys (streamSRows t true mm),
      ((fun r => r.version) ∘ fun k => outRow (finalTailOf t.headers)
        (groupRow ((bucketCols t.headers).map Prod.fst) (streamSRows t true mm) k)) k
        = Cell.str ("v" ++ k) := by
    intro k hk
    show addVersionPrefix (Cell.str k) = Cell.str ("v" ++ k)
    rw [addVersionPrefix_str, if_neg (by simp [hv k hk])]
  rw [List.map_congr_left hmapeq]
  apply List.Nodup.map ?_ (sortedKeys_nodup _)
  intro a b hab
  injection hab with hab'
  exact vappend_inj hab'

/-- Witness for C1 at a table with keys "1" and "2" and a "Done"
column. -/
theorem C1_witness :
    ((⟨["Version", "Done"],
        [⟨Cell.str "v1", [("Done", Cell.int 1)]⟩, ⟨Cell.str "v2", [("Done", Cell.int 2)]⟩]⟩ :
      OutTable).rows.map (fun r => r.version)).Nodup :=
  C1_unique_versions
    ⟨["Version", "Done"], [[Cell.str "1", Cell.int 1], [Cell.str "2", Cell.int 2]]⟩ true
    ⟨["Version", "Done"],
      [⟨Cell.str "v1", [("Done", Cell.int 1)]⟩, ⟨Cell.str "v2", [("Done", Cell.int 2)]⟩]⟩
    rfl (by decide)

/-! ### Well-typedness and conservation machinery for C2 and C4 -/

/-- For well-typed count cells and a version label matching no bucket
keyword, every cell selected by a bucket in a working row is an
integer or missing. -/
theorem streamRows1_int_at {t : Table} {mv mm : Bool}
    (hcells : ∀ r ∈ t.rows, ∀ i, i < r.length → 0 < i → intOrMissing (r.getD i Cell.missing) = true)
    (hver : labelMatchesAny (t.headers.getD 0 "") = false)
    {r1 : List Cell} (hr1 : r1 ∈ streamRows1 t mv mm)
    {p : String × List Nat} (hp : p ∈ bucketCols t.headers)
    {i : Nat} (hi : i ∈ p.2) :
    intOrMissing (r1.getD i Cell.missing) = true := by
  have hne0 : i ≠ 0 := fun h => zero_notin_buckets hver p hp (h ▸ hi)
  have hraw : ∃ r0 ∈ t.rows, r1.getD i Cell.missing = r0.getD i Cell.missing ∧ r1.length = r0.length := by
    cases mv with
    | false => exact ⟨r1, hr1, rfl, rfl⟩
    | true =>
      obtain ⟨r0, hr0, rfl⟩ := List.mem_map.mp hr1
      exact ⟨r0, hr0, normalizeRow_getD_pos mm r0 i Cell.missing hne0, normalizeRow_length mm r0⟩
  obtain ⟨r0, hr0, hgd, _⟩ := hraw
  rw [hgd]
  by_cases hlen : i < r0.length
  · exact hcells r0 hr0 i hlen (Nat.pos_of_ne_zero hne0)
  · rw [getD_of_le r0 Cell.missing i (le_of_not_lt hlen)]
    rfl

/-- Under the same hypotheses, a bucket's cell in a streamlined row is
the integer sum of its selected raw cells. -/
theorem buildSRow_lookup_int {t : Table} {mv mm : Bool}
    (hcells : ∀ r ∈ t.rows, ∀ i, i < r.length → 0 < i → intOrMissing (r.getD i Cell.missing) = true)
    (hver : labelMatchesAny (t.headers.getD 0 "") = false)
    {r1 : List Cell} (hr1 : r1 ∈ streamRows1 t mv mm)
    {p : String × List Nat} (hp : p ∈ bucketCols t.headers) :
    (buildSRow (bucketCols t.headers) r1).cells.lookup p.1
      = some (Cell.int (((p.2.map (fun i => r1.getD i Cell.missing)).map cellInt).sum)) := by
  have hlook := lookup_fst_map
    (fun x => pySum (x.2.map (fun i => r1.getD i Cell.missing)))
    (bucketCols_fst_nodup t.headers) hp
  rw [show (buildSRow (bucketCols t.headers) r1).cells
    = (bucketCols t.headers).map
        (fun x => (x.1, pySum (x.2.map (fun i => r1.getD i Cell.missing)))) from rfl]
  rw [hlook]
  congr 1
  apply pySum_int
  intro c hc
  obtain ⟨i, hi, rfl⟩ := List.mem_map.mp hc
  exact streamRows1_int_at hcells hver hr1 hp hi

/-- Under the same hypotheses, all per-group sums are well-typed. -/
theorem mergeGroupsOk_of_int {t : Table} {mv mm : Bool}
    (hcells : ∀ r ∈ t.rows, ∀ i, i < r.length → 0 < i → intOrMissing (r.getD i Cell.missing) = true)
    (hver : labelMatchesAny (t.headers.getD 0 "") = false) :
    mergeGroupsOk ((bucketCols t.headers).map Prod.fst) (streamSRows t mv mm) = true := by
  unfold mergeGroupsOk
  rw [List.all_eq_true]
  intro k hk
  rw [List.all_eq_true]
  intro l hl
  obtain ⟨b, hb, rfl⟩ := List.mem_map.mp hl
  apply pySumOk_int
  intro c hc
  obtain ⟨srow, hsrow, rfl⟩ := List.mem_map.mp hc
  obtain ⟨r1, hr1, rfl⟩ := List.mem_map.mp (List.mem_of_mem_filter hsrow)
  rw [buildSRow_lookup_int hcells hver hr1 hb]
  rfl

/-- A row whose version cell is not missing has a group key. -/
theorem rowKey_isSome {r : SRow} (h : r.version ≠ Cell.missing) :
    ∃ k, rowKey r = some k := by
  unfold rowKey
  cases hv : r.version with
  | missing => exact absurd hv h
  | str s => exact ⟨s, rfl⟩
  | int n => exact ⟨toString n, rfl⟩

theorem sum_map_ite_mem (a : String → Int) (b : Int) (k0 : String) :
    ∀ keys : List String, keys.Nodup → k0 ∈ keys →
      (keys.map (fun k => if k = k0 then b + a k else a k)).sum = b + (keys.map a).sum := by
  intro keys
  induction keys with
  | nil => intro _ hk; cases hk
  | cons x xs ih =>
    intro hnd hk
    rcases List.mem_cons.mp hk with rfl | hmem
    · have hnx : ∀ k ∈ xs, ¬ (k = k0) := by
        intro k hk2 hEq
        exact (List.nodup_cons.mp hnd).1 (hEq ▸ hk2)
      rw [List.map_cons, if_pos rfl, List.sum_cons,
        List.map_congr_left (fun k hk2 => if_neg (hnx k hk2)),
        List.map_cons, List.sum_cons]
      ring
    · have hxk : ¬ (x = k0) := fun hEq => (List.nodup_cons.mp hnd).1 (hEq ▸ hmem)
      rw [List.map_cons, if_neg hxk, List.sum_cons,
        ih (List.nodup_cons.mp hnd).2 hmem, List.map_cons, List.sum_cons]
      ring

/-- Summing fiberwise over a duplicate-free list of keys that covers
every row equals summing over all rows (the group-by partition
argument). -/
theorem sum_filter_partition {α : Type} (key : α → Option String) (g : α → Int) :
    ∀ (keys : List String) (rows : List α), keys.Nodup →
      (∀ r ∈ rows, ∃ k ∈ keys, key r = some k) →
      (keys.map (fun k => ((rows.filter (fun r => key r == some k)).map g).sum)).sum
        = (rows.map g).sum := by
  intro keys rows
  induction rows with
  | nil =>
    intro hnd _
    simp
  | cons r rs ih =>
    intro hnd hcover
    obtain ⟨k0, hk0, hkey⟩ := hcover r (List.mem_cons_self r rs)
    have hcover' : ∀ x ∈ rs, ∃ k ∈ keys, key x = some k :=
      fun x hx => hcover x (List.mem_cons_of_mem r hx)
    have step : ∀ k ∈ keys,
        (((r :: rs).filter (fun x => key x == some k)).map g).sum
          = (if k = k0 then g r + ((rs.filter (fun x => key x == some k)).map g).sum
              else ((rs.filter (fun x => key x == some k)).map g).sum) := by
      intro k hk
      rw [List.filter_cons]
      by_cases hkk : k = k0
      · subst hkk
        have hb : (key r == some k) = true := by rw [hkey]; simp
        rw [if_pos hb, if_pos rfl, List.map_cons, List.sum_cons]
      · have hb : (key r == some k) = false := by
          rw [hkey]
          simp [beq_iff_eq]
          exact fun hEq => hkk hEq.symm
        rw [hb, if_neg hkk]
        simp
    rw [List.map_congr_left step, sum_map_ite_mem _ (g r) k0 keys hnd hk0, ih hnd hcover',
      List.map_cons, List.sum_cons]

/-- Counterexample to claim C2 as stated, at two inputs that satisfy
the stated preconditions (at least one column, distinct labels).
First, headers ["qa", "In QA"]: the version column's label "qa"
matches the "In QA" keywords, so the string-valued version column and
the integer-valued "In QA" column are summed together row-wise — a
pandas `TypeError`.  Second, the version-only table that the claim
itself highlights: with version merging on, no column matches any
bucket, the aggregation dict is empty, and
`groupby(...).agg(empty dict)` raises `ValueError`. -/
theorem C2_counterexample :
    (0 < (["qa", "In QA"] : List String).length
      ∧ (["qa", "In QA"] : List String).Nodup
      ∧ streamline ⟨["qa", "In QA"], [[Cell.str "1.0", Cell.int 1]]⟩ true true
          = Except.error "TypeError")
    ∧ streamline ⟨["Version"], [[Cell.str "1.0"]]⟩ true true = Except.error "ValueError" :=
  ⟨⟨by decide, by decide, rfl⟩, rfl⟩

/-- Claim C2 amended: streamlining raises no error and returns the
well-defined (possibly empty) pipeline output provided the
non-version cells are counts (integers or missing), the version
column's label contains no bucket keyword, and — when version merging
is on — at least one column is assigned to a bucket.  With merging
off, this covers every flag value of `mergeMinorVersions`, tables
whose labels match no bucket keywords, and version-only tables; with
merging on, an entirely empty bucket assignment instead raises
`ValueError` from the empty-dict aggregation, and a version column
dragged into a bucket can raise `TypeError` (see the
counterexample). -/
theorem C2_no_error (t : Table) (mv mm : Bool)
    (hcells : ∀ r ∈ t.rows, ∀ i, i < r.length → 0 < i → intOrMissing (r.getD i Cell.missing) = true)
    (hver : labelMatchesAny (t.headers.getD 0 "") = false)
    (hne : mv = true → bucketCols t.headers ≠ []) :
    streamline t mv mm = Except.ok (streamlineCore t mv mm) := by
  refine streamline_eq_ok.mpr ⟨?_, ?_, rfl⟩
  · cases mv with
    | false => rfl
    | true =>
      rw [Bool.true_and]
      cases hb : (bucketCols t.headers).isEmpty with
      | true => exact absurd (List.isEmpty_iff.mp hb) (hne rfl)
      | false => rfl
  · unfold streamlineOk
    rw [Bool.and_eq_true]
    constructor
    · rw [List.all_eq_true]
      intro r1 hr1
      unfold buildSRowOk
      rw [List.all_eq_true]
      intro b hb
      apply pySumOk_int
      intro c hc
      obtain ⟨i, hi, rfl⟩ := List.mem_map.mp hc
      exact streamRows1_int_at hcells hver hr1 hb hi
    · cases mv with
      | false => rfl
      | true =>
        rw [Bool.not_true, Bool.false_or]
        exact mergeGroupsOk_of_int hcells hver

/-- Witness for C2 at a table whose "Done" column is assigned to a
bucket, with version merging on. -/
theorem C2_witness :
    streamline ⟨["Version", "Done"], [[Cell.str "1", Cell.int 2]]⟩ true true
      = Except.ok (streamlineCore ⟨["Version", "Done"], [[Cell.str "1", Cell.int 2]]⟩ true true) :=
  C2_no_error ⟨["Version", "Done"], [[Cell.str "1", Cell.int 2]]⟩ true true
    (by decide) (by decide) (fun _ => by decide)

/-- Total of one output column, identified by its label. -/
def outColTotal (o : OutTable) (label : String) : Int :=
  (o.rows.map (fun r => cellInt ((r.cells.lookup label).getD Cell.missing))).sum

/-- Total of a set of raw columns (by index) over all input rows,
missing cells counting zero. -/
def rawBucketTotal (t : Table) (idxs : List Nat) : Int :=
  (t.rows.map (fun r => ((idxs.map (fun i => r.getD i Cell.missing)).map cellInt).sum)).sum

/-- Counterexample to claim C4 as stated: with version merging on, the
single input row has a missing version and Done 5; the grouping drops
it, the output is empty, and the Done totals disagree (0 against 5). -/
theorem C4_counterexample :
    ("Done", [1]) ∈ bucketCols ["Version", "Done"]
      ∧ streamline ⟨["Version", "Done"], [[Cell.missing, Cell.int 5]]⟩ true true
          = Except.ok ⟨["Version", "Done"], []⟩
      ∧ outColTotal ⟨["Version", "Done"], []⟩ "Done"
          ≠ rawBucketTotal ⟨["Version", "Done"], [[Cell.missing, Cell.int 5]]⟩ [1] :=
  ⟨by decide, rfl, by decide⟩

/-- Claim C4 amended: count conservation — the total of a bucket's
output column equals the total of its selected raw columns — holds
for both flag settings provided the count cells are
integers-or-missing, the version column's label matches no bucket
keyword, and, when version merging is on, no version value is
missing (merging drops missing-version rows, losing their counts:
see the counterexample). -/
theorem C4_count_conservation (t : Table) (mv mm : Bool) (o : OutTable) (p : String × List Nat)
    (hcells : ∀ r ∈ t.rows, ∀ i, i < r.length → 0 < i → intOrMissing (r.getD i Cell.missing) = true)
    (hver : labelMatchesAny (t.headers.getD 0 "") = false)
    (hmiss : mv = true → ∀ r ∈ t.rows, r.getD 0 Cell.missing ≠ Cell.missing)
    (hp : p ∈ bucketCols t.headers)
    (h : streamline t mv mm = Except.ok o) :
    outColTotal o p.1 = rawBucketTotal t p.2 := by
  obtain ⟨hemp, hok, rfl⟩ := streamline_eq_ok.mp h
  have hp1tail : p.1 ∈ finalTailOf t.headers := by
    obtain ⟨kws, hg, _, _⟩ := mem_bucketCols.mp hp
    exact mem_finalTail.mpr
      ⟨groups_labels_desired p.1 (List.mem_map_of_mem Prod.fst hg),
       List.mem_map_of_mem Prod.fst hp⟩
  have hstepA : ∀ r1 ∈ streamRows1 t mv mm,
      cellInt (((buildSRow (bucketCols t.headers) r1).cells.lookup p.1).getD Cell.missing)
        = ((p.2.map (fun i => r1.getD i Cell.missing)).map cellInt).sum := by
    intro r1 hr1
    rw [buildSRow_lookup_int hcells hver hr1 hp]
    rfl
  have houtlook : ∀ r : SRow,
      (outRow (finalTailOf t.headers) r).cells.lookup p.1
        = some ((r.cells.lookup p.1).getD Cell.missing) :=
    fun r => lookup_label_map (fun l => (r.cells.lookup l).getD Cell.missing) hp1tail
  have hstepB : ((streamRows1 t mv mm).map
      (fun r1 => ((p.2.map (fun i => r1.getD i Cell.missing)).map cellInt).sum)).sum
        = rawBucketTotal t p.2 := by
    unfold rawBucketTotal
    cases mv with
    | false => rfl
    | true =>
      rw [show streamRows1 t true mm = t.rows.map (normalizeRow mm) from rfl, List.map_map]
      congr 1
      apply List.map_congr_left
      intro r0 hr0
      show ((p.2.map (fun i => (normalizeRow mm r0).getD i Cell.missing)).map cellInt).sum = _
      rw [List.map_map, List.map_map]
      congr 1
      apply List.map_congr_left
      intro i hi
      show cellInt ((normalizeRow mm r0).getD i Cell.missing) = cellInt (r0.getD i Cell.missing)
      rw [normalizeRow_getD_pos mm r0 i Cell.missing
        (fun hz => zero_notin_buckets hver p hp (hz ▸ hi))]
  cases mv with
  | false =>
    unfold outColTotal
    rw [core_rows_nomerge, List.map_map]
    rw [show streamSRows t false mm
      = (streamRows1 t false mm).map (buildSRow (bucketCols t.headers)) from rfl, List.map_map]
    rw [← hstepB]
    congr 1
    apply List.map_congr_left
    intro r1 hr1
    show cellInt (((outRow (finalTailOf t.headers)
      (buildSRow (bucketCols t.headers) r1)).cells.lookup p.1).getD Cell.missing) = _
    rw [houtlook]
    simp only [Option.getD_some]
    exact hstepA r1 hr1
  | true =>
    unfold outColTotal
    rw [core_rows_merge, List.map_map]
    have hkey : ∀ k ∈ sortedKeys (streamSRows t true mm),
        ((fun r => cellInt ((r.cells.lookup p.1).getD Cell.missing)) ∘
          fun k => outRow (finalTailOf t.headers)
            (groupRow ((bucketCols t.headers).map Prod.fst) (streamSRows t true mm) k)) k
          = (((streamSRows t true mm).filter (fun r => rowKey r == some k)).map
              (fun r => cellInt ((r.cells.lookup p.1).getD Cell.missing))).sum := by
      intro k hk
      show cellInt (((outRow (finalTailOf t.headers)
        (groupRow ((bucketCols t.headers).map Prod.fst)
          (streamSRows t true mm) k)).cells.lookup p.1).getD Cell.missing) = _
      rw [houtlook]
      simp only [Option.getD_some]
      have hgl := lookup_label_map
        (fun l => pySum (((streamSRows t true mm).filter (fun r => rowKey r == some k)).map
          (fun r => (r.cells.lookup l).getD Cell.missing)))
        (List.mem_map_of_mem Prod.fst hp)
      rw [show (groupRow ((bucketCols t.headers).map Prod.fst)
          (streamSRows t true mm) k).cells
        = ((bucketCols t.headers).map Prod.fst).map
            (fun l => (l, pySum (((streamSRows t true mm).filter
              (fun r => rowKey r == some k)).map
                (fun r => (r.cells.lookup l).getD Cell.missing)))) from rfl]
      rw [hgl]
      simp only [Option.getD_some]
      have hint : ∀ c ∈ ((streamSRows t true mm).filter (fun r => rowKey r == some k)).map
          (fun r => (r.cells.lookup p.1).getD Cell.missing), intOrMissing c = true := by
        intro c hc
        obtain ⟨srow, hsrow, rfl⟩ := List.mem_map.mp hc
        obtain ⟨r1, hr1, rfl⟩ := List.mem_map.mp (List.mem_of_mem_filter hsrow)
        rw [buildSRow_lookup_int hcells hver hr1 hp]
        rfl
      rw [pySum_int hint, List.map_map]
      rfl
    rw [List.map_congr_left hkey]
    rw [sum_filter_partition rowKey (fun r => cellInt ((r.cells.lookup p.1).getD Cell.missing))
      (sortedKeys (streamSRows t true mm)) (streamSRows t true mm) (sortedKeys_nodup _) ?_]
    · rw [show streamSRows t true mm
        = (streamRows1 t true mm).map (buildSRow (bucketCols t.headers)) from rfl, List.map_map]
      rw [← hstepB]
      congr 1
      apply List.map_congr_left
      intro r1 hr1
      exact hstepA r1 hr1
    · intro srow hsrow
      obtain ⟨r1, hr1, hb⟩ := List.mem_map.mp hsrow
      obtain ⟨r0, hr0, hn⟩ := List.mem_map.mp hr1
      have hv0 : r0.getD 0 Cell.missing ≠ Cell.missing := hmiss rfl r0 hr0
      have hvn : srow.version ≠ Cell.missing := by
        rw [← hb, ← hn]
        show (normalizeRow mm r0).getD 0 Cell.missing ≠ Cell.missing
        cases r0 with
        | nil => exact absurd rfl hv0
        | cons v rest => exact normVersionCell_ne_missing mm hv0
      obtain ⟨k, hkk⟩ := rowKey_isSome hvn
      exact ⟨k, mem_sortedKeys.mpr ⟨srow, hsrow, hkk⟩, hkk⟩

/-- Witness for C4: two rows of version "1" with Done 2 and 3 merge
into one row with Done 5, matching the raw total. -/
theorem C4_witness :
    outColTotal ⟨["Version", "Done"], [⟨Cell.str "v1", [("Done", Cell.int 5)]⟩]⟩ "Done"
      = rawBucketTotal ⟨["Version", "Done"],
          [[Cell.str "1", Cell.int 2], [Cell.str "1", Cell.int 3]]⟩ [1] :=
  C4_count_conservation
    ⟨["Version", "Done"], [[Cell.str "1", Cell.int 2], [Cell.str "1", Cell.int 3]]⟩ true true
    ⟨["Version", "Done"], [⟨Cell.str "v1", [("Done", Cell.int 5)]⟩]⟩ ("Done", [1])
    (by decide) (by decide) (fun _ => by decide) (by decide) rfl

end CycleView
